import Mathlib

/-!
Verification of the HealthGuard retrieval-and-ranking pipeline
(`agents/agents.py`, `orchestrator.py`) against its specification.

Strings are modelled as `List Char`; the embedding follows the Python
source function by function: the retrieval engine (`retrieve_literature`),
the rule-based differential generator (`_generate_differential_fallback`
with its fixed `CONDITIONS` catalog), the citation validator
(`validate_output`) and the orchestrator (`run_healthguard`).
External effectful collaborators (the sentence-transformer embedding plus
the FAISS similarity search) are abstracted as an injected search oracle
returning scored candidate indices, exactly the data the Python code
consumes from `faiss_index.search`.
-/

namespace HealthGuard

/-- Strings are modelled as lists of characters. -/
abbrev Str := List Char

/-- Coerce a Lean string literal into the model representation. -/
def str (s : String) : Str := s.toList

/-- Python `str.lower()` restricted to ASCII, which covers the corpus. -/
def lower (s : Str) : Str := s.map Char.toLower

/-- The whitespace class of Python `str.strip()` / regex `\s` (ASCII part). -/
def pySpace (c : Char) : Bool :=
  c = ' ' || c = '\t' || c = '\n' || c = '\x0d' || c = '\x0b' || c = '\x0c'

/-- Python `str.strip()`: drop leading and trailing whitespace. -/
def strip (s : Str) : Str :=
  ((s.dropWhile pySpace).reverse.dropWhile pySpace).reverse

/-- Python `sep.join(parts)`. -/
def joinSep (sep : Str) : List Str → Str
  | [] => []
  | [x] => x
  | x :: y :: xs => x ++ sep ++ joinSep sep (y :: xs)

/-- Decimal rendering of a natural number, as Python f-string formatting does. -/
def natStr (n : ℕ) : Str := str (toString n)

-- ---------------------------------------------------------------------------
-- Data model
-- ---------------------------------------------------------------------------

/-- One extracted clinical finding: the dict
`{"finding": ..., "value": ..., "context": ...}` produced by agent 1.
`value` is `none` when the key is absent or `None`. -/
structure Finding where
  finding : Str
  value : Option Str
  ctx : Str
deriving DecidableEq, Repr

/-- Python truthiness of the optional `value` field (`if f.get("value")`):
absent, `None` and the empty string are falsy. -/
def truthy : Option Str → Bool
  | none => false
  | some v => !v.isEmpty

/-- One literature chunk as built by `chunk_corpus`:
`{chunk_id, text, article_id, title, url}`.  `article_id` is optional
because the code reads it with `chunk.get("article_id", "")`. -/
structure Chunk where
  chunk_id : Str
  text : Str
  article_id : Option Str
  title : Str
  url : Str
deriving DecidableEq, Repr

/-- `chunk.get("article_id", "")`. -/
def Chunk.articleIdOrEmpty (c : Chunk) : Str := c.article_id.getD []

/-- A retrieved chunk with its attached `relevance_score`
(`{**chunk, "relevance_score": float(score)}`). -/
structure ScoredChunk where
  chunk : Chunk
  relevance_score : ℚ
deriving DecidableEq, Repr

-- ---------------------------------------------------------------------------
-- AGENT 2: retrieve_literature
-- ---------------------------------------------------------------------------

/-- Query construction in `retrieve_literature`: for each finding append
`f["finding"]` and, when truthy, `str(f["value"])`. -/
def query_parts (findings : List Finding) : List Str :=
  findings.flatMap fun f =>
    [f.finding] ++ (if truthy f.value then [f.value.getD []] else [])

/-- `query_text = " ".join(query_parts)`. -/
def query_text (findings : List Finding) : Str :=
  joinSep (str " ") (query_parts findings)

/-- A search oracle abstracting `model.encode` + `faiss_index.search`:
given the query text and `top_k` it yields scored candidate row indices
(`zip(scores[0], indices[0])`); FAISS uses index `-1` for missing rows. -/
abbrev SearchOracle := Str → ℕ → List (ℚ × ℤ)

/-- The result-collection loop of `retrieve_literature`: skip index `-1`,
skip chunk ids already seen, otherwise emit the chunk with its score. -/
def collectResults (chunks : List Chunk) : List (ℚ × ℤ) → List Str → List ScoredChunk
  | [], _ => []
  | (score, idx) :: rest, seen =>
    if idx = -1 then collectResults chunks rest seen
    else
      let chunk := chunks.getD idx.toNat ⟨[], [], none, [], []⟩
      if chunk.chunk_id ∈ seen then collectResults chunks rest seen
      else ⟨chunk, score⟩ :: collectResults chunks rest (chunk.chunk_id :: seen)

/-- Agent 2, `retrieve_literature`: build the query from the findings,
query the store through the injected oracle, then dedupe by `chunk_id`. -/
def retrieve_literature (findings : List Finding) (search : SearchOracle)
    (chunks : List Chunk) (top_k : ℕ) : List ScoredChunk :=
  collectResults chunks (search (query_text findings) top_k) []

/-- Candidate scored chunks named by the oracle rows, `-1` rows removed. -/
def candidateChunks (chunks : List Chunk) (rows : List (ℚ × ℤ)) : List ScoredChunk :=
  rows.filterMap fun p =>
    if p.2 = -1 then none
    else some ⟨chunks.getD p.2.toNat ⟨[], [], none, [], []⟩, p.1⟩

/-- First-occurrence deduplication by key, the specification-side
description of the `seen_ids` loop. -/
def dedupByKey {α β : Type} [DecidableEq β] (key : α → β) : List α → List β → List α
  | [], _ => []
  | x :: xs, seen =>
    if key x ∈ seen then dedupByKey key xs seen
    else x :: dedupByKey key xs (key x :: seen)

theorem collectResults_eq_dedup (chunks : List Chunk) (rows : List (ℚ × ℤ))
    (seen : List Str) :
    collectResults chunks rows seen =
      dedupByKey (fun r => r.chunk.chunk_id) (candidateChunks chunks rows) seen := by
  induction rows generalizing seen with
  | nil => rfl
  | cons p rest ih =>
    obtain ⟨score, idx⟩ := p
    by_cases h1 : idx = -1
    · simp [collectResults, candidateChunks, h1, ih]
    · by_cases h2 :
        (chunks.getD idx.toNat ⟨[], [], none, [], []⟩).chunk_id ∈ seen
      · simp [collectResults, candidateChunks, dedupByKey, h1, h2, ih,
          List.filterMap_cons]
      · simp [collectResults, candidateChunks, dedupByKey, h1, h2, ih,
          List.filterMap_cons]

theorem dedupByKey_length_le {α β : Type} [DecidableEq β] (key : α → β)
    (l : List α) (seen : List β) : (dedupByKey key l seen).length ≤ l.length := by
  induction l generalizing seen with
  | nil => simp [dedupByKey]
  | cons x xs ih =>
    by_cases h : key x ∈ seen
    · simp only [dedupByKey, if_pos h]
      exact le_trans (ih seen) (Nat.le_succ _)
    · simp only [dedupByKey, if_neg h, List.length_cons]
      exact Nat.succ_le_succ (ih _)

theorem dedupByKey_key_not_seen {α β : Type} [DecidableEq β] (key : α → β)
    (l : List α) (seen : List β) :
    ∀ x ∈ dedupByKey key l seen, key x ∉ seen := by
  induction l generalizing seen with
  | nil => simp [dedupByKey]
  | cons y ys ih =>
    by_cases h : key y ∈ seen
    · simpa [dedupByKey, if_pos h] using ih seen
    · intro x hx
      simp only [dedupByKey, if_neg h, List.mem_cons] at hx
      rcases hx with rfl | hx
      · exact h
      · have := ih (key y :: seen) x hx
        intro hs
        exact this (List.mem_cons_of_mem _ hs)

theorem dedupByKey_nodup {α β : Type} [DecidableEq β] (key : α → β)
    (l : List α) (seen : List β) :
    ((dedupByKey key l seen).map key).Nodup := by
  induction l generalizing seen with
  | nil => simp [dedupByKey]
  | cons y ys ih =>
    by_cases h : key y ∈ seen
    · simpa [dedupByKey, if_pos h] using ih seen
    · simp only [dedupByKey, if_neg h, List.map_cons, List.nodup_cons]
      refine ⟨?_, ih _⟩
      intro hmem
      obtain ⟨x, hx, hkx⟩ := List.mem_map.mp hmem
      exact dedupByKey_key_not_seen key ys (key y :: seen) x hx
        (hkx ▸ List.mem_cons_self _ _)

-- ---------------------------------------------------------------------------
-- AGENT 4: validate_output
-- ---------------------------------------------------------------------------

/-- Split a string at its first `]`: the characters before it and the
rest after it.  `none` when no `]` occurs. -/
def splitAtRB : Str → Option (Str × Str)
  | [] => none
  | c :: cs =>
    if c = ']' then some ([], cs)
    else (splitAtRB cs).map fun p => (c :: p.1, p.2)

theorem splitAtRB_length :
    ∀ (s content rest : Str), splitAtRB s = some (content, rest) →
      content.length + 1 + rest.length = s.length := by
  intro s
  induction s with
  | nil => intro content rest h; simp [splitAtRB] at h
  | cons c cs ih =>
    intro content rest h
    by_cases hc : c = ']'
    · simp only [splitAtRB, if_pos hc, Option.some.injEq, Prod.mk.injEq] at h
      obtain ⟨rfl, rfl⟩ := h
      simp only [List.length_nil, List.length_cons]
      omega
    · simp only [splitAtRB, if_neg hc, Option.map_eq_some'] at h
      obtain ⟨⟨content2, rest2⟩, h2, heq⟩ := h
      simp only at heq
      cases heq
      have := ih content2 _ h2
      simp only [List.length_cons]
      omega

/-- The capture group of `\s*([^\]]+)\]` applied to the non-empty run of
non-`]` characters `content`: the greedy `\s*` eats the leading whitespace
unless that would leave `[^\]]+` nothing, in which case it backs off one
character. -/
def capture (content : Str) : Str :=
  let t := content.dropWhile pySpace
  if t.isEmpty then content.drop (content.length - 1) else t

/-- `re.findall(r'\[<tag>:\s*([^\]]+)\]', s, re.IGNORECASE)`: scan `s`
left to right; at each position try to match the lowercased literal `tag`
(e.g. `"[source:"`), then capture up to the next `]` (at least one
character); on success resume after the `]`, otherwise advance one
character. -/
def findRefs (tag : Str) : Str → List Str
  | [] => []
  | c :: cs =>
    if lower ((c :: cs).take tag.length) = tag then
      match h : splitAtRB ((c :: cs).drop tag.length) with
      | some (content, rest) =>
        if content.isEmpty then findRefs tag cs
        else capture content :: findRefs tag rest
      | none => findRefs tag cs
    else findRefs tag cs
termination_by s => s.length
decreasing_by
  · simp
  · have hlen := splitAtRB_length _ _ _ h
    have hdrop : ((c :: cs).drop tag.length).length ≤ (c :: cs).length := by
      rw [List.length_drop]
      omega
    simp only [List.length_cons] at hdrop ⊢
    omega
  · simp
  · simp

/-- Python substring containment `needle in hay` on our string model. -/
def isSubstrOf (needle hay : Str) : Bool := decide (needle <:+: hay)

/-- The bidirectional substring test of `validate_output` for a
`[Source: ...]` citation against the lowercased literature titles. -/
def sourceCiteOk (lit_titles : List Str) (cite : Str) : Bool :=
  lit_titles.any fun t =>
    isSubstrOf (lower (strip cite)) t || isSubstrOf t (lower (strip cite))

/-- The exact-match test of `validate_output` for a `[Chunk: ...]`
reference against the lowercased chunk ids. -/
def chunkRefOk (lit_ids : List Str) (r : Str) : Bool :=
  decide (lower (strip r) ∈ lit_ids)

/-- Issue text for an unmatched `[Source: ...]` citation. -/
def srcIssueMsg (cite : Str) : Str :=
  str "Citation not found in retrieved literature: '" ++ strip cite ++ str "'"

/-- Issue text for an unmatched `[Chunk: ...]` reference. -/
def chunkIssueMsg (r : Str) : Str :=
  str "Chunk reference not found: '" ++ strip r ++ str "'"

/-- Result dict of `validate_output`. -/
structure ValidationResult where
  valid : Bool
  issues : List Str
  citations_found : ℕ
deriving DecidableEq, Repr

/-- Agent 4, `validate_output`: check every `[Source: ...]` citation by
bidirectional lowercased substring match against the literature titles and
every `[Chunk: ...]` reference by exact lowercased match against the
chunk ids, appending one issue per failure. -/
def validate_output (differential : Str) (literature : List Chunk) : ValidationResult :=
  let lit_titles := literature.map fun c => lower c.title
  let lit_ids := literature.map fun c => lower c.chunk_id
  let cited := findRefs (str "[source:") differential
  let issues1 := cited.foldl
    (fun issues cite =>
      if sourceCiteOk lit_titles cite then issues else issues ++ [srcIssueMsg cite])
    []
  let chunk_refs := findRefs (str "[chunk:") differential
  let issues := chunk_refs.foldl
    (fun issues r =>
      if chunkRefOk lit_ids r then issues else issues ++ [chunkIssueMsg r])
    issues1
  ⟨issues.isEmpty, issues, cited.length + chunk_refs.length⟩

theorem foldl_issues {α : Type} (ok : α → Bool) (msg : α → Str)
    (l : List α) (acc : List Str) :
    l.foldl (fun issues x => if ok x then issues else issues ++ [msg x]) acc
      = acc ++ (l.filter fun x => !ok x).map msg := by
  induction l generalizing acc with
  | nil => simp
  | cons x xs ih =>
    by_cases h : ok x <;> simp [h, ih, List.append_assoc]

-- ---------------------------------------------------------------------------
-- AGENT 3: _generate_differential_fallback
-- ---------------------------------------------------------------------------

/-- One entry of the fixed condition catalog:
`{"keywords": [...], "description": ..., "article_key": ...}`. -/
structure ConditionInfo where
  keywords : List Str
  description : Str
  article_key : Str
deriving DecidableEq, Repr

/-- The fixed `CONDITIONS` catalog, in declaration (= dict iteration) order. -/
def CONDITIONS : List (Str × ConditionInfo) := [
  (str "Community-Acquired Pneumonia (CAP)",
   ⟨[str "fever", str "cough", str "dyspnea", str "shortness of breath",
     str "pleuritic chest pain", str "sputum", str "tachypnea",
     str "tachycardia", str "crackles", str "rales"],
    str "Infection of the lung parenchyma presenting with respiratory symptoms and systemic inflammation.",
    str "pneumonia"⟩),
  (str "Acute Heart Failure / Decompensated Heart Failure",
   ⟨[str "dyspnea", str "shortness of breath", str "orthopnea",
     str "paroxysmal nocturnal dyspnea", str "edema",
     str "lower extremity edema", str "leg swelling", str "fatigue",
     str "crackles", str "rales", str "jugular venous distension",
     str "gallop", str "tachycardia", str "weight gain"],
    str "Inability of the heart to pump adequately, causing fluid overload and congestion.",
    str "heart_failure"⟩),
  (str "Acute Coronary Syndrome (ACS)",
   ⟨[str "chest pain", str "diaphoresis", str "nausea", str "dyspnea",
     str "shortness of breath", str "palpitations", str "syncope",
     str "tachycardia", str "hypertension", str "hypotension",
     str "diabetes", str "diabetic", str "smoking", str "smoker"],
    str "Spectrum including unstable angina, NSTEMI, and STEMI due to coronary artery occlusion.",
    str "acute_coronary"⟩),
  (str "COPD Exacerbation",
   ⟨[str "cough", str "dyspnea", str "shortness of breath", str "wheezing",
     str "sputum", str "smoking", str "smoker", str "tachypnea",
     str "hypoxemia", str "hypoxia"],
    str "Acute worsening of COPD symptoms beyond normal day-to-day variation.",
    str "copd"⟩),
  (str "Asthma Exacerbation",
   ⟨[str "wheezing", str "cough", str "dyspnea", str "shortness of breath",
     str "chest tightness", str "tachypnea", str "tachycardia",
     str "hypoxemia"],
    str "Acute worsening of airway inflammation and bronchospasm.",
    str "asthma"⟩),
  (str "Pulmonary Embolism (PE)",
   ⟨[str "dyspnea", str "shortness of breath", str "pleuritic chest pain",
     str "chest pain", str "tachycardia", str "tachypnea", str "hemoptysis",
     str "hypoxemia", str "hypoxia", str "syncope", str "hypotension",
     str "leg swelling", str "edema"],
    str "Obstruction of pulmonary vasculature by thrombus, typically from DVT.",
    str "pulmonary_embolism"⟩),
  (str "Sepsis",
   ⟨[str "fever", str "tachycardia", str "tachypnea", str "hypotension",
     str "confusion", str "altered mental status", str "dyspnea",
     str "shortness of breath", str "cough", str "dysuria",
     str "abdominal pain", str "hypoxemia"],
    str "Life-threatening organ dysfunction from dysregulated host response to infection.",
    str "sepsis"⟩),
  (str "Acute Ischemic Stroke",
   ⟨[str "hemiparesis", str "aphasia", str "confusion",
     str "altered mental status", str "headache", str "dizziness",
     str "vertigo", str "ataxia", str "diplopia", str "hypertension",
     str "hypertensive", str "diabetes", str "diabetic"],
    str "Acute cerebrovascular occlusion causing neurological deficits.",
    str "stroke"⟩),
  (str "Type 2 Diabetes – Acute Complications",
   ⟨[str "polyuria", str "polydipsia", str "weight loss", str "fatigue",
     str "blurred vision", str "nausea", str "vomiting", str "confusion",
     str "diabetes", str "diabetic", str "obese", str "obesity"],
    str "Hyperglycemic emergencies (DKA/HHS) or symptomatic uncontrolled diabetes.",
    str "diabetes"⟩),
  (str "COVID-19",
   ⟨[str "fever", str "cough", str "fatigue", str "myalgia", str "headache",
     str "anosmia", str "ageusia", str "dyspnea", str "shortness of breath",
     str "hypoxemia", str "hypoxia", str "diarrhea"],
    str "SARS-CoV-2 infection ranging from mild to critical illness.",
    str "covid"⟩)]

/-- The normalized findings term set built at the top of
`_generate_differential_fallback`: each lowercased finding name plus,
when truthy, the lowercased value.  Modelled as a list; only membership
is ever used. -/
def findings_set (findings : List Finding) : List Str :=
  findings.flatMap fun f =>
    [lower f.finding] ++ (if truthy f.value then [lower (f.value.getD [])] else [])

/-- `_score_condition`: count how many catalog keywords occur in the
findings term set (whole-term membership). -/
def score_condition (fset : List Str) (keywords : List Str) : ℕ :=
  (keywords.filter fun kw => kw ∈ fset).length

/-- Preferred evidence pass: every retrieved chunk whose `article_id`
(lowercased, empty when missing) contains the condition's `article_key`
as a substring, in retrieval order, uncapped. -/
def preferredSupport (literature : List Chunk) (info : ConditionInfo) : List Chunk :=
  literature.filter fun ch => isSubstrOf info.article_key (lower ch.articleIdOrEmpty)

/-- Fallback evidence loop: chunks whose lowercased text contains some
keyword that also matched the findings; stops as soon as 2 are collected. -/
def fallbackSupportLoop (fset : List Str) (keywords : List Str) :
    List Chunk → List Chunk → List Chunk
  | [], acc => acc
  | ch :: rest, acc =>
    if (keywords.filter fun kw => kw ∈ fset).any
        (fun kw => isSubstrOf kw (lower ch.text)) then
      let acc2 := acc ++ [ch]
      if 2 ≤ acc2.length then acc2
      else fallbackSupportLoop fset keywords rest acc2
    else fallbackSupportLoop fset keywords rest acc

/-- Supporting-evidence selection for one condition: the preferred pass,
the fallback loop only when the preferred pass found nothing, then the
final `[:3]` cap. -/
def supportingFor (fset : List Str) (info : ConditionInfo)
    (literature : List Chunk) : List Chunk :=
  let supporting := preferredSupport literature info
  let supporting :=
    if supporting.isEmpty then fallbackSupportLoop fset info.keywords literature []
    else supporting
  supporting.take 3

/-- One element of the `scored` list built by the generator. -/
structure ScoredEntry where
  condition : Str
  score : ℕ
  max_possible : ℕ
  description : Str
  supporting : List Chunk
deriving DecidableEq, Repr

/-- The `scored` list before sorting: catalog order, conditions with
`score == 0` dropped. -/
def scoredList (fset : List Str) (literature : List Chunk) : List ScoredEntry :=
  CONDITIONS.filterMap fun p =>
    if 0 < score_condition fset p.2.keywords then
      some ⟨p.1, score_condition fset p.2.keywords, p.2.keywords.length,
        p.2.description, supportingFor fset p.2 literature⟩
    else none

/-- One step of a stable descending insertion sort on `score`:
the new element goes after every element of score ≥ its own. -/
def insertScoreDesc (x : ScoredEntry) : List ScoredEntry → List ScoredEntry
  | [] => [x]
  | y :: ys => if y.score < x.score then x :: y :: ys else y :: insertScoreDesc x ys

/-- `scored.sort(key=lambda x: x["score"], reverse=True)`: Python list
sort is stable, and every stable sort by the same key computes the same
list, so a stable insertion sort is a faithful model. -/
def sortScoreDesc (l : List ScoredEntry) : List ScoredEntry :=
  l.foldl (fun acc x => insertScoreDesc x acc) []

/-- Python `round` on the exact value: round half to even.  For every
score/keyword-count pair arising here the float computation in the source
is exact at the only ties (denominator 8) and more than `1/28` away from
every other rounding boundary, so the exact-rational model coincides with
the float one. -/
def pyRound (q : ℚ) : ℤ :=
  if q - ⌊q⌋ < 1 / 2 then ⌊q⌋
  else if (1 : ℚ) / 2 < q - ⌊q⌋ then ⌊q⌋ + 1
  else if Even ⌊q⌋ then ⌊q⌋ else ⌊q⌋ + 1

/-- Round half to even of the fraction `a / b` computed in natural
arithmetic; proved below to agree with `pyRound` on `(a : ℚ) / b`. -/
def pyRoundNatEven (a b : ℕ) : ℕ :=
  if 2 * (a % b) < b then a / b
  else if b < 2 * (a % b) then a / b + 1
  else if (a / b) % 2 = 0 then a / b else a / b + 1

/-- The confidence banding of the generator:
`pct = round(score / max(max_possible, 1) * 100)`, then
High for `pct >= 60`, Moderate for `pct >= 35`, else Low. -/
def confidence_label (score max_possible : ℕ) : Str :=
  let pct := pyRound ((score : ℚ) / ((max max_possible 1 : ℕ) : ℚ) * 100)
  if 60 ≤ pct then str "High"
  else if 35 ≤ pct then str "Moderate"
  else str "Low"

/-- The dict lookup `CONDITIONS[item["condition"]]["keywords"]`. -/
def conditionKeywords (name : Str) : List Str :=
  ((CONDITIONS.find? fun p => decide (p.1 = name)).map fun p => p.2.keywords).getD []

/-- `chunk["text"][:300].replace("\n", " ")`. -/
def snippet (ch : Chunk) : Str :=
  (ch.text.take 300).map fun c => if c = '\n' then ' ' else c

/-- The two lines rendered per supporting chunk. -/
def renderSupport (ch : Chunk) : List Str :=
  [str "> \"" ++ snippet ch ++ str "...\"",
   str "> — *[Source: " ++ ch.title ++ str "](" ++ ch.url ++ str ")*\n"]

/-- The block of lines rendered for one ranked entry. -/
def renderEntry (fset : List Str) (rank : ℕ) (item : ScoredEntry) : List Str :=
  let confidence := confidence_label item.score item.max_possible
  let matched := (conditionKeywords item.condition).filter fun kw => kw ∈ fset
  [str "## " ++ natStr rank ++ str ". " ++ item.condition,
   str "**Confidence:** " ++ confidence ++ str " (" ++ natStr item.score ++ str "/"
     ++ natStr item.max_possible ++ str " key findings matched)\n",
   str "**Description:** " ++ item.description ++ str "\n",
   str "**Matching findings:** " ++ joinSep (str ", ") matched ++ str "\n"]
  ++ (if item.supporting.isEmpty then
        [str "*No directly matching literature chunk retrieved for this condition.*\n"]
      else
        str "**Supporting Evidence:**" :: item.supporting.flatMap renderSupport)
  ++ [[]]

/-- The fixed message returned when no condition scores above zero. -/
def noMatchMsg : Str :=
  str "No matching conditions found for the provided findings. Please provide more clinical detail."

/-- Agent 3 fallback, `_generate_differential_fallback`: normalize the
findings, score and filter the catalog, sort stably by score descending,
and render the top 7 entries (or the fixed no-match message). -/
def generate_differential_fallback (findings : List Finding)
    (literature : List Chunk) : Str :=
  let fset := findings_set findings
  let scored := sortScoreDesc (scoredList fset literature)
  if scored.isEmpty then noMatchMsg
  else
    joinSep (str "\n")
      (str "# Differential Diagnosis\n" ::
        ((scored.take 7).mapIdx fun i item => renderEntry fset (i + 1) item).flatten)

-- ---------------------------------------------------------------------------
-- Orchestrator: run_healthguard
-- ---------------------------------------------------------------------------

/-- The `PipelineResult` dataclass.  The `validation` dict's empty default
is modelled as `none`; the wall-clock `timings` dict is not modelled
(real time is outside the embedding).  A raised Python exception is
modelled as `Except.error` carrying the exception text `str(e)`. -/
structure PipelineResult where
  findings : List Finding
  literature : List ScoredChunk
  differential : Str
  validation : Option ValidationResult
  error : Option Str
deriving DecidableEq, Repr

/-- The field defaults of `PipelineResult()`. -/
def emptyPipelineResult : PipelineResult := ⟨[], [], [], none, none⟩

/-- The early-exit message for zero extracted findings. -/
def emptyFindingsMsg : Str :=
  str "No clinical findings could be extracted. Please provide more detailed clinical notes."

/-- `f"Pipeline error: {e}"`. -/
def pipelineErrorMsg (e : Str) : Str := str "Pipeline error: " ++ e

/-- `run_healthguard`, with the four stages injected as fallible
functions (each may raise; the orchestrator's single `try` block converts
the first raise into the pipeline error, keeping the fields already
assigned and leaving the later ones at their defaults). -/
def run_healthguard
    (extract : Except Str (List Finding))
    (retrieveStage : List Finding → Except Str (List ScoredChunk))
    (generateStage : List Finding → List ScoredChunk → Except Str Str)
    (validateStage : Str → List ScoredChunk → Except Str ValidationResult) :
    PipelineResult :=
  match extract with
  | .error e => { emptyPipelineResult with error := some (pipelineErrorMsg e) }
  | .ok fs =>
    if fs.isEmpty then
      { emptyPipelineResult with findings := fs, error := some emptyFindingsMsg }
    else
      match retrieveStage fs with
      | .error e =>
        { emptyPipelineResult with findings := fs, error := some (pipelineErrorMsg e) }
      | .ok lit =>
        match generateStage fs lit with
        | .error e =>
          { emptyPipelineResult with
              findings := fs, literature := lit, error := some (pipelineErrorMsg e) }
        | .ok diff =>
          match validateStage diff lit with
          | .error e =>
            { emptyPipelineResult with
                findings := fs, literature := lit, differential := diff,
                error := some (pipelineErrorMsg e) }
          | .ok v =>
            { findings := fs, literature := lit, differential := diff,
              validation := some v, error := none }

-- ---------------------------------------------------------------------------
-- Specification-side notions and concrete witness inputs
-- ---------------------------------------------------------------------------

/-- Declarative acceptance of a `[Source: ...]` citation: the lowercased
stripped citation is a substring of some passage's lowercased title, or
contains it as a substring. -/
def SourceAccepts (literature : List Chunk) (cite : Str) : Prop :=
  ∃ ch ∈ literature,
    lower (strip cite) <:+: lower ch.title ∨ lower ch.title <:+: lower (strip cite)

/-- Declarative acceptance of a `[Chunk: ...]` reference: the lowercased
stripped reference equals some passage's lowercased chunk id exactly. -/
def ChunkAccepts (literature : List Chunk) (r : Str) : Prop :=
  ∃ ch ∈ literature, lower (strip r) = lower ch.chunk_id

instance (literature : List Chunk) (cite : Str) :
    Decidable (SourceAccepts literature cite) := by
  unfold SourceAccepts; infer_instance

instance (literature : List Chunk) (r : Str) :
    Decidable (ChunkAccepts literature r) := by
  unfold ChunkAccepts; infer_instance

/-- Declaration position of a condition name in the catalog. -/
def catIdx (name : Str) : ℕ :=
  (CONDITIONS.map Prod.fst).findIdx fun n => decide (n = name)

/-- The ranking order claimed for the rendered differential: strictly
higher score first, score ties resolved by catalog declaration order. -/
def rankRel (a b : ScoredEntry) : Prop :=
  b.score < a.score ∨ (a.score = b.score ∧ catIdx a.condition < catIdx b.condition)

/-- A one-chunk demo store used by concrete witnesses. -/
def demoChunk : Chunk :=
  ⟨str "doc1_chunk_0", str "some passage text", some (str "doc1"),
   str "Doc One Review", str "https://example.org/doc1"⟩

/-- A demo search oracle that answers every query with the single row 0,
similarity 1. -/
def demoOracle : SearchOracle := fun _ _ => [(1, 0)]

/-- A single extracted finding used by concrete witnesses. -/
def dyspneaFinding : Finding := ⟨str "dyspnea", none, []⟩

/-- The first catalog entry, used to instantiate catalog-indexed claims. -/
def cond0 : Str × ConditionInfo := CONDITIONS.getD 0 (str "", ⟨[], [], []⟩)

/-- Demo extraction stage: one finding, no failure. -/
def demoExtract : Except Str (List Finding) := .ok [dyspneaFinding]

/-- Demo retrieval stage: empty literature, no failure. -/
def demoRetrieve : List Finding → Except Str (List ScoredChunk) := fun _ => .ok []

/-- Demo generation stage that raises. -/
def demoGenerateFail : List Finding → List ScoredChunk → Except Str Str :=
  fun _ _ => .error (str "boom")

/-- Demo validation stage, never raising. -/
def demoValidate : Str → List ScoredChunk → Except Str ValidationResult :=
  fun _ _ => .ok ⟨true, [], 0⟩

-- ---------------------------------------------------------------------------
-- Claim theorems
-- ---------------------------------------------------------------------------

theorem candidateChunks_length_le (chunks : List Chunk) (rows : List (ℚ × ℤ)) :
    (candidateChunks chunks rows).length ≤ rows.length :=
  List.length_filterMap_le _ _

/-- C1: the claim that `retrieve_literature` with an empty findings
sequence returns an empty result without querying the store is false: the
code builds the empty query string and still embeds and searches; here a
store whose search answers the empty query with row 0 makes the call
return that passage. -/
theorem C1_counterexample :
    retrieve_literature [] demoOracle [demoChunk] 8 ≠ [] := by decide

/-- C1 (amended): with an empty findings sequence `retrieve_literature`
builds the empty query string and still queries the store through the
injected search; the result is the first-occurrence deduplication of
whatever the search returns for the empty query, not necessarily empty.
(The empty-findings short-circuit lives in the orchestrator instead.) -/
theorem C1_empty_findings_still_queries (search : SearchOracle)
    (chunks : List Chunk) (top_k : ℕ) :
    query_text [] = [] ∧
    retrieve_literature [] search chunks top_k =
      dedupByKey (fun r => r.chunk.chunk_id)
        (candidateChunks chunks (search [] top_k)) [] :=
  ⟨rfl, collectResults_eq_dedup chunks (search [] top_k) []⟩

/-- C7: provided the search returns at most `top_k` rows (the FAISS
contract), `retrieve_literature` returns at most `top_k` passages, its
chunk ids are pairwise distinct, and the result is exactly the
first-occurrence deduplication of the returned candidate rows — dropped
duplicates are not backfilled, so `top_k` is an upper bound only. -/
theorem C7_retrieve_topk_dedup (findings : List Finding) (search : SearchOracle)
    (chunks : List Chunk) (top_k : ℕ)
    (hlen : (search (query_text findings) top_k).length ≤ top_k) :
    (retrieve_literature findings search chunks top_k).length ≤ top_k ∧
    ((retrieve_literature findings search chunks top_k).map
      (fun r => r.chunk.chunk_id)).Nodup ∧
    retrieve_literature findings search chunks top_k =
      dedupByKey (fun r => r.chunk.chunk_id)
        (candidateChunks chunks (search (query_text findings) top_k)) [] := by
  have heq := collectResults_eq_dedup chunks (search (query_text findings) top_k) []
  refine ⟨?_, ?_, heq⟩
  · calc (retrieve_literature findings search chunks top_k).length
        = (dedupByKey (fun r => r.chunk.chunk_id)
            (candidateChunks chunks (search (query_text findings) top_k)) []).length := by
          rw [retrieve_literature, heq]
      _ ≤ (candidateChunks chunks (search (query_text findings) top_k)).length :=
          dedupByKey_length_le _ _ _
      _ ≤ (search (query_text findings) top_k).length := candidateChunks_length_le _ _
      _ ≤ top_k := hlen
  · rw [retrieve_literature, heq]
    exact dedupByKey_nodup _ _ _

/-- Witness for C7 at a concrete store, oracle and `top_k`. -/
theorem C7_witness :
    (retrieve_literature [dyspneaFinding] demoOracle [demoChunk] 2).length ≤ 2 ∧
    ((retrieve_literature [dyspneaFinding] demoOracle [demoChunk] 2).map
      (fun r => r.chunk.chunk_id)).Nodup ∧
    retrieve_literature [dyspneaFinding] demoOracle [demoChunk] 2 =
      dedupByKey (fun r => r.chunk.chunk_id)
        (candidateChunks [demoChunk] (demoOracle (query_text [dyspneaFinding]) 2)) [] :=
  C7_retrieve_topk_dedup [dyspneaFinding] demoOracle [demoChunk] 2 (by decide)

theorem sourceCiteOk_iff (literature : List Chunk) (cite : Str) :
    sourceCiteOk (literature.map fun c => lower c.title) cite = true ↔
      SourceAccepts literature cite := by
  simp only [sourceCiteOk, SourceAccepts, isSubstrOf, List.any_eq_true,
    List.mem_map, Bool.or_eq_true, decide_eq_true_eq]
  constructor
  · rintro ⟨t, ⟨ch, hch, rfl⟩, h⟩
    exact ⟨ch, hch, h⟩
  · rintro ⟨ch, hch, h⟩
    exact ⟨lower ch.title, ⟨ch, hch, rfl⟩, h⟩

theorem chunkRefOk_iff (literature : List Chunk) (r : Str) :
    chunkRefOk (literature.map fun c => lower c.chunk_id) r = true ↔
      ChunkAccepts literature r := by
  simp only [chunkRefOk, ChunkAccepts, decide_eq_true_eq, List.mem_map]
  constructor
  · rintro ⟨ch, hch, h⟩
    exact ⟨ch, hch, h.symm⟩
  · rintro ⟨ch, hch, h⟩
    exact ⟨ch, hch, h.symm⟩

theorem validate_issues_eq (d : Str) (literature : List Chunk) :
    (validate_output d literature).issues =
      ((findRefs (str "[source:") d).filter
        (fun c => !sourceCiteOk (literature.map fun ch => lower ch.title) c)).map
        srcIssueMsg
      ++ ((findRefs (str "[chunk:") d).filter
        (fun r => !chunkRefOk (literature.map fun ch => lower ch.chunk_id) r)).map
        chunkIssueMsg := by
  show List.foldl _ (List.foldl _ [] _) _ = _
  rw [foldl_issues, foldl_issues]
  simp

theorem sourceBad_eq (literature : List Chunk) (c : Str) :
    (!sourceCiteOk (literature.map fun ch => lower ch.title) c) =
      decide (¬ SourceAccepts literature c) := by
  by_cases h : SourceAccepts literature c
  · simp [h, (sourceCiteOk_iff literature c).mpr h]
  · have hb : sourceCiteOk (literature.map fun ch => lower ch.title) c = false := by
      cases hv : sourceCiteOk (literature.map fun ch => lower ch.title) c
      · rfl
      · exact absurd ((sourceCiteOk_iff literature c).mp hv) h
    simp [h, hb]

theorem chunkBad_eq (literature : List Chunk) (r : Str) :
    (!chunkRefOk (literature.map fun ch => lower ch.chunk_id) r) =
      decide (¬ ChunkAccepts literature r) := by
  by_cases h : ChunkAccepts literature r
  · simp [h, (chunkRefOk_iff literature r).mpr h]
  · have hb : chunkRefOk (literature.map fun ch => lower ch.chunk_id) r = false := by
      cases hv : chunkRefOk (literature.map fun ch => lower ch.chunk_id) r
      · rfl
      · exact absurd ((chunkRefOk_iff literature r).mp hv) h
    simp [h, hb]

/-- C2: `validate_output` emits exactly one issue per `[Source: ...]`
citation failing the bidirectional lowercased substring test against the
titles and per `[Chunk: ...]` reference failing the exact lowercased
chunk-id match; `valid` is exactly "no issues"; `citations_found` counts
every reference of either form, matching or not. -/
theorem C2_validate_output (d : Str) (literature : List Chunk) :
    (validate_output d literature).issues.length =
      ((findRefs (str "[source:") d).countP fun c =>
        decide (¬ SourceAccepts literature c)) +
      ((findRefs (str "[chunk:") d).countP fun r =>
        decide (¬ ChunkAccepts literature r)) ∧
    ((validate_output d literature).valid = true ↔
      (validate_output d literature).issues = []) ∧
    (validate_output d literature).citations_found =
      (findRefs (str "[source:") d).length + (findRefs (str "[chunk:") d).length := by
  refine ⟨?_, ?_, rfl⟩
  · rw [validate_issues_eq]
    simp only [List.length_append, List.length_map]
    rw [← List.countP_eq_length_filter, ← List.countP_eq_length_filter]
    congr 1
    · exact List.countP_congr fun c _ => by rw [sourceBad_eq]
    · exact List.countP_congr fun r _ => by rw [chunkBad_eq]
  · show ((validate_output d literature).issues.isEmpty = true) ↔ _
    simp [List.isEmpty_iff]

/-- C10: the issues list is ordered with every failing `[Source: ...]`
citation first, in textual order of appearance, followed by every failing
`[Chunk: ...]` reference, in textual order of appearance. -/
theorem C10_issue_order (d : Str) (literature : List Chunk) :
    (validate_output d literature).issues =
      ((findRefs (str "[source:") d).filter
        (fun c => decide (¬ SourceAccepts literature c))).map srcIssueMsg
      ++ ((findRefs (str "[chunk:") d).filter
        (fun r => decide (¬ ChunkAccepts literature r))).map chunkIssueMsg := by
  rw [validate_issues_eq]
  congr 1
  · exact congrArg _ (List.filter_congr fun c _ => by rw [sourceBad_eq])
  · exact congrArg _ (List.filter_congr fun r _ => by rw [chunkBad_eq])

theorem floor_natCast_div (a b : ℕ) :
    ⌊(a : ℚ) / (b : ℚ)⌋ = ((a / b : ℕ) : ℤ) := by
  have h1 : ((a : ℤ) : ℚ) = (a : ℚ) := by push_cast; rfl
  calc ⌊(a : ℚ) / (b : ℚ)⌋ = ⌊((a : ℤ) : ℚ) / ((b : ℕ) : ℚ)⌋ := by rw [h1]
    _ = (a : ℤ) / (b : ℤ) := Rat.floor_intCast_div_natCast _ _
    _ = ((a / b : ℕ) : ℤ) := by norm_cast

theorem frac_natCast_div (a b : ℕ) (hb : 0 < b) :
    (a : ℚ) / (b : ℚ) - (((a / b : ℕ) : ℤ) : ℚ) = ((a % b : ℕ) : ℚ) / (b : ℚ) := by
  have hbQ : (0 : ℚ) < b := by exact_mod_cast hb
  have hbne : (b : ℚ) ≠ 0 := ne_of_gt hbQ
  have hcast : (((a / b : ℕ) : ℤ) : ℚ) = ((a / b : ℕ) : ℚ) := by push_cast; rfl
  have h2 : (a : ℚ) = (b : ℚ) * ((a / b : ℕ) : ℚ) + ((a % b : ℕ) : ℚ) := by
    exact_mod_cast (Nat.div_add_mod a b).symm
  rw [hcast, h2]
  field_simp

theorem modfrac_lt_half (a b : ℕ) (hb : 0 < b) :
    ((a % b : ℕ) : ℚ) / (b : ℚ) < 1 / 2 ↔ 2 * (a % b) < b := by
  have hbQ : (0 : ℚ) < b := by exact_mod_cast hb
  rw [div_lt_iff₀ hbQ, show (1 : ℚ) / 2 * (b : ℚ) = (b : ℚ) / 2 by ring,
    lt_div_iff₀ (by norm_num : (0 : ℚ) < 2)]
  constructor
  · intro h
    have h2 : (a % b) * 2 < b := by exact_mod_cast h
    omega
  · intro h
    have h2 : (a % b) * 2 < b := by omega
    exact_mod_cast h2

theorem half_lt_modfrac (a b : ℕ) (hb : 0 < b) :
    (1 : ℚ) / 2 < ((a % b : ℕ) : ℚ) / (b : ℚ) ↔ b < 2 * (a % b) := by
  have hbQ : (0 : ℚ) < b := by exact_mod_cast hb
  rw [div_lt_div_iff₀ (by norm_num : (0 : ℚ) < 2) hbQ]
  rw [one_mul]
  constructor
  · intro h
    have h2 : b < (a % b) * 2 := by exact_mod_cast h
    omega
  · intro h
    have h2 : b < (a % b) * 2 := by omega
    exact_mod_cast h2

theorem pyRound_natCast_div (a b : ℕ) (hb : 0 < b) :
    pyRound ((a : ℚ) / (b : ℚ)) = (pyRoundNatEven a b : ℤ) := by
  rw [pyRound, floor_natCast_div, frac_natCast_div a b hb, pyRoundNatEven]
  by_cases h1 : 2 * (a % b) < b
  · rw [if_pos ((modfrac_lt_half a b hb).mpr h1), if_pos h1]
  · rw [if_neg fun hc => h1 ((modfrac_lt_half a b hb).mp hc), if_neg h1]
    by_cases h2 : b < 2 * (a % b)
    · rw [if_pos ((half_lt_modfrac a b hb).mpr h2), if_pos h2]
      push_cast
      ring
    · rw [if_neg fun hc => h2 ((half_lt_modfrac a b hb).mp hc), if_neg h2]
      by_cases h3 : (a / b) % 2 = 0
      · rw [if_pos, if_pos h3]
        rw [Int.even_coe_nat, Nat.even_iff]
        exact h3
      · rw [if_neg, if_neg h3]
        · push_cast
          ring
        · rw [Int.even_coe_nat, Nat.even_iff]
          exact h3

theorem confidence_label_eval (s m : ℕ) :
    confidence_label s m =
      (if 60 ≤ pyRoundNatEven (s * 100) (max m 1) then str "High"
       else if 35 ≤ pyRoundNatEven (s * 100) (max m 1) then str "Moderate"
       else str "Low") := by
  have h0 : 0 < max m 1 := by omega
  have hq : (s : ℚ) / ((max m 1 : ℕ) : ℚ) * 100 =
      ((s * 100 : ℕ) : ℚ) / ((max m 1 : ℕ) : ℚ) := by
    push_cast
    ring
  rw [confidence_label, hq, pyRound_natCast_div _ _ h0]
  by_cases h1 : 60 ≤ pyRoundNatEven (s * 100) (max m 1)
  · rw [if_pos (by exact_mod_cast h1), if_pos h1]
  · rw [if_neg (fun hc => h1 (by exact_mod_cast hc)), if_neg h1]
    by_cases h2 : 35 ≤ pyRoundNatEven (s * 100) (max m 1)
    · rw [if_pos (by exact_mod_cast h2), if_pos h2]
    · rw [if_neg (fun hc => h2 (by exact_mod_cast hc)), if_neg h2]

/-- C5: every rendered entry's confidence line carries the label
`confidence_label score max_score`, that label is the banding of
`round(score / max(max_score, 1) * 100)` at thresholds 60 and 35, and in
particular 3/5 gives High, 2/6 gives Low and 7/12 gives Moderate. -/
theorem C5_confidence_banding :
    (∀ (fset : List Str) (rank : ℕ) (item : ScoredEntry),
      (renderEntry fset rank item)[1]? =
        some (str "**Confidence:** " ++ confidence_label item.score item.max_possible
          ++ str " (" ++ natStr item.score ++ str "/" ++ natStr item.max_possible
          ++ str " key findings matched)\n")) ∧
    (∀ s m : ℕ,
      confidence_label s m =
        if 60 ≤ pyRound ((s : ℚ) / ((max m 1 : ℕ) : ℚ) * 100) then str "High"
        else if 35 ≤ pyRound ((s : ℚ) / ((max m 1 : ℕ) : ℚ) * 100) then str "Moderate"
        else str "Low") ∧
    confidence_label 3 5 = str "High" ∧
    confidence_label 2 6 = str "Low" ∧
    confidence_label 7 12 = str "Moderate" := by
  refine ⟨fun fset rank item => rfl, fun s m => rfl, ?_, ?_, ?_⟩
  all_goals rw [confidence_label_eval]
  all_goals decide

theorem conditions_keywords_nodup : ∀ p ∈ CONDITIONS, p.2.keywords.Nodup := by
  decide

theorem conditions_names_nodup : (CONDITIONS.map Prod.fst).Nodup := by
  decide

/-- C3: the claim is false in its "appears in the report" part: with the
single finding "dyspnea", COVID-19 scores 1 > 0 yet is absent from the
rendered report, because eight conditions survive and the report keeps
only the top seven (COVID-19 is declared last, so the score tie drops
it). -/
theorem C3_counterexample :
    0 < score_condition (findings_set [dyspneaFinding])
        (conditionKeywords (str "COVID-19")) ∧
    (str "COVID-19") ∉
      ((sortScoreDesc (scoredList (findings_set [dyspneaFinding]) [])).take 7).map
        ScoredEntry.condition := by
  decide

/-- C3 (amended): each catalog condition's score is the cardinality of
the intersection of its keyword list with the findings term set
(whole-term membership), and a condition appears among the surviving
scored hypotheses iff its score is strictly positive; the rendered report
then shows at most the top 7 of these. -/
theorem C3_score_and_survival (findings : List Finding) (literature : List Chunk)
    (name : Str) (info : ConditionInfo) (hmem : (name, info) ∈ CONDITIONS) :
    score_condition (findings_set findings) info.keywords =
      (info.keywords.toFinset ∩ (findings_set findings).toFinset).card ∧
    ((∃ e ∈ scoredList (findings_set findings) literature, e.condition = name) ↔
      0 < score_condition (findings_set findings) info.keywords) := by
  have hnd : info.keywords.Nodup := conditions_keywords_nodup (name, info) hmem
  constructor
  · have hft : (info.keywords.filter fun kw => kw ∈ findings_set findings).toFinset
        = info.keywords.toFinset ∩ (findings_set findings).toFinset := by
      ext x
      simp [List.mem_toFinset, List.mem_filter]
    rw [score_condition, ← List.toFinset_card_of_nodup (hnd.filter _), hft]
  · constructor
    · rintro ⟨e, he, heq⟩
      simp only [scoredList, List.mem_filterMap] at he
      obtain ⟨p, hp, hfp⟩ := he
      by_cases hsc : 0 < score_condition (findings_set findings) p.2.keywords
      · rw [if_pos hsc] at hfp
        have hcond : e.condition = p.1 := by
          cases hfp
          rfl
        have hp1 : p.1 = name := by rw [← hcond, heq]
        have hpeq : p = (name, info) :=
          List.inj_on_of_nodup_map conditions_names_nodup hp hmem hp1
        have : p.2 = info := congrArg Prod.snd hpeq
        rw [← this]
        exact hsc
      · rw [if_neg hsc] at hfp
        exact absurd hfp (by simp)
    · intro hpos
      refine ⟨⟨name, score_condition (findings_set findings) info.keywords,
        info.keywords.length, info.description,
        supportingFor (findings_set findings) info literature⟩, ?_, rfl⟩
      simp only [scoredList, List.mem_filterMap]
      exact ⟨(name, info), hmem, by rw [if_pos hpos]⟩

/-- Witness for the amended C3 at the first catalog condition and a
concrete findings list. -/
theorem C3_witness :
    score_condition (findings_set [dyspneaFinding]) cond0.2.keywords =
      (cond0.2.keywords.toFinset ∩ (findings_set [dyspneaFinding]).toFinset).card ∧
    ((∃ e ∈ scoredList (findings_set [dyspneaFinding]) [], e.condition = cond0.1) ↔
      0 < score_condition (findings_set [dyspneaFinding]) cond0.2.keywords) :=
  C3_score_and_survival [dyspneaFinding] [] cond0.1 cond0.2 (by decide)

theorem mem_insertScoreDesc {x y : ScoredEntry} :
    ∀ {l : List ScoredEntry}, y ∈ insertScoreDesc x l ↔ y = x ∨ y ∈ l := by
  intro l
  induction l with
  | nil => simp [insertScoreDesc]
  | cons z zs ih =>
    rw [insertScoreDesc]
    by_cases h : z.score < x.score
    · rw [if_pos h]
      simp [List.mem_cons]
    · rw [if_neg h]
      simp only [List.mem_cons, ih]
      tauto

theorem rankRel_score_le {a b : ScoredEntry} (h : rankRel a b) : b.score ≤ a.score := by
  rcases h with h | ⟨h, _⟩ <;> omega

theorem insertScoreDesc_pairwise (x : ScoredEntry) (l : List ScoredEntry)
    (hl : l.Pairwise rankRel)
    (hq : ∀ y ∈ l, catIdx y.condition < catIdx x.condition) :
    (insertScoreDesc x l).Pairwise rankRel := by
  induction l with
  | nil => simp [insertScoreDesc]
  | cons y ys ih =>
    rw [List.pairwise_cons] at hl
    obtain ⟨hy, hys⟩ := hl
    rw [insertScoreDesc]
    by_cases hlt : y.score < x.score
    · rw [if_pos hlt]
      refine List.Pairwise.cons ?_ (List.Pairwise.cons hy hys)
      intro z hz
      rcases List.mem_cons.mp hz with rfl | hz2
      · exact Or.inl hlt
      · have hzs : z.score ≤ y.score := rankRel_score_le (hy z hz2)
        exact Or.inl (by omega)
    · rw [if_neg hlt]
      refine List.Pairwise.cons ?_
        (ih hys fun z hz => hq z (List.mem_cons_of_mem _ hz))
      intro z hz
      rcases mem_insertScoreDesc.mp hz with rfl | hz2
      · rcases Nat.lt_or_ge z.score y.score with h | h
        · exact Or.inl h
        · have : y.score = z.score := by omega
          exact Or.inr ⟨this, hq y (List.mem_cons_self _ _)⟩
      · exact hy z hz2

theorem foldl_insert_pairwise :
    ∀ (l acc : List ScoredEntry),
      acc.Pairwise rankRel →
      (∀ x ∈ l, ∀ y ∈ acc, catIdx y.condition < catIdx x.condition) →
      l.Pairwise (fun a b => catIdx a.condition < catIdx b.condition) →
      (l.foldl (fun acc x => insertScoreDesc x acc) acc).Pairwise rankRel := by
  intro l
  induction l with
  | nil => intro acc hacc _ _; exact hacc
  | cons x xs ih =>
    intro acc hacc hcross hl
    rw [List.pairwise_cons] at hl
    rw [List.foldl_cons]
    refine ih _
      (insertScoreDesc_pairwise x acc hacc fun y hy =>
        hcross x (List.mem_cons_self _ _) y hy) ?_ hl.2
    intro z hz y hy
    rcases mem_insertScoreDesc.mp hy with rfl | hy2
    · exact hl.1 z hz
    · exact hcross z (List.mem_cons_of_mem _ hz) y hy2

theorem conditions_pairwise_catIdx :
    CONDITIONS.Pairwise fun p q => catIdx p.1 < catIdx q.1 := by
  decide

theorem scoredList_pairwise_catIdx (fset : List Str) (literature : List Chunk) :
    (scoredList fset literature).Pairwise
      fun a b => catIdx a.condition < catIdx b.condition := by
  rw [scoredList, List.pairwise_filterMap]
  refine conditions_pairwise_catIdx.imp ?_
  intro p q h x hx y hy
  by_cases hp : 0 < score_condition fset p.2.keywords
  · rw [if_pos hp] at hx
    by_cases hq2 : 0 < score_condition fset q.2.keywords
    · rw [if_pos hq2] at hy
      cases hx
      cases hy
      exact h
    · rw [if_neg hq2] at hy
      cases hy
  · rw [if_neg hp] at hx
    cases hx

theorem sortScoreDesc_pairwise (fset : List Str) (literature : List Chunk) :
    (sortScoreDesc (scoredList fset literature)).Pairwise rankRel :=
  foldl_insert_pairwise _ [] List.Pairwise.nil (by simp)
    (scoredList_pairwise_catIdx fset literature)

theorem insertScoreDesc_length (x : ScoredEntry) (l : List ScoredEntry) :
    (insertScoreDesc x l).length = l.length + 1 := by
  induction l with
  | nil => rfl
  | cons y ys ih =>
    rw [insertScoreDesc]
    by_cases h : y.score < x.score
    · rw [if_pos h]
      simp
    · rw [if_neg h]
      simp [ih]

theorem sortScoreDesc_length (l : List ScoredEntry) :
    (sortScoreDesc l).length = l.length := by
  have key : ∀ (l acc : List ScoredEntry),
      (l.foldl (fun acc x => insertScoreDesc x acc) acc).length =
        acc.length + l.length := by
    intro l
    induction l with
    | nil => intro acc; simp
    | cons x xs ih =>
      intro acc
      rw [List.foldl_cons, ih, insertScoreDesc_length]
      simp only [List.length_cons]
      omega
  simpa using key l []

theorem insertScoreDesc_perm (x : ScoredEntry) (l : List ScoredEntry) :
    (insertScoreDesc x l).Perm (x :: l) := by
  induction l with
  | nil => exact List.Perm.refl _
  | cons y ys ih =>
    rw [insertScoreDesc]
    by_cases h : y.score < x.score
    · rw [if_pos h]
    · rw [if_neg h]
      exact (List.Perm.cons y ih).trans (List.Perm.swap x y ys)

theorem sortScoreDesc_perm (l : List ScoredEntry) :
    (sortScoreDesc l).Perm l := by
  have key : ∀ (l acc : List ScoredEntry),
      (l.foldl (fun acc x => insertScoreDesc x acc) acc).Perm (acc ++ l) := by
    intro l
    induction l with
    | nil => intro acc; simp
    | cons x xs ih =>
      intro acc
      rw [List.foldl_cons]
      refine (ih _).trans ?_
      refine (List.Perm.append_right xs (insertScoreDesc_perm x acc)).trans ?_
      simpa using List.perm_middle.symm.trans (List.Perm.refl (acc ++ x :: xs))
  simpa using key l []

theorem isEmpty_false_of_ne_nil {α : Type} {l : List α} (h : l ≠ []) :
    l.isEmpty = false := by
  cases l with
  | nil => exact absurd rfl h
  | cons a as => rfl

/-- C4: for findings with at least one catalog-matching term the
rendered differential enumerates exactly the surviving conditions (the
ranked list is a permutation of the surviving scored list), sorted by
score descending with ties in catalog declaration order, and shows at
most the top 7; the report text is exactly the rendering of the first 7
sorted entries. -/
theorem C4_ranking (findings : List Finding) (literature : List Chunk)
    (h : ∃ p ∈ CONDITIONS, 0 < score_condition (findings_set findings) p.2.keywords) :
    (sortScoreDesc (scoredList (findings_set findings) literature)).Perm
      (scoredList (findings_set findings) literature) ∧
    (sortScoreDesc (scoredList (findings_set findings) literature)).Pairwise rankRel ∧
    ((sortScoreDesc (scoredList (findings_set findings) literature)).take 7).length ≤ 7 ∧
    generate_differential_fallback findings literature =
      joinSep (str "\n")
        (str "# Differential Diagnosis\n" ::
          (((sortScoreDesc (scoredList (findings_set findings) literature)).take 7).mapIdx
            fun i item => renderEntry (findings_set findings) (i + 1) item).flatten) := by
  refine ⟨sortScoreDesc_perm _, sortScoreDesc_pairwise _ _, List.length_take_le _ _, ?_⟩
  obtain ⟨p, hp, hpos⟩ := h
  have hmem : (⟨p.1, score_condition (findings_set findings) p.2.keywords,
      p.2.keywords.length, p.2.description,
      supportingFor (findings_set findings) p.2 literature⟩ : ScoredEntry) ∈
      scoredList (findings_set findings) literature := by
    simp only [scoredList, List.mem_filterMap]
    exact ⟨p, hp, by rw [if_pos hpos]⟩
  have hne : scoredList (findings_set findings) literature ≠ [] :=
    List.ne_nil_of_mem hmem
  have hsne : sortScoreDesc (scoredList (findings_set findings) literature) ≠ [] := by
    intro hc
    have := sortScoreDesc_length (scoredList (findings_set findings) literature)
    rw [hc] at this
    exact hne (List.length_eq_zero.mp this.symm)
  simp only [generate_differential_fallback, isEmpty_false_of_ne_nil hsne,
    Bool.false_eq_true, if_false]

/-- Witness for C4 at a concrete findings list and empty literature. -/
theorem C4_witness :
    (sortScoreDesc (scoredList (findings_set [dyspneaFinding]) [])).Perm
      (scoredList (findings_set [dyspneaFinding]) []) ∧
    (sortScoreDesc (scoredList (findings_set [dyspneaFinding]) [])).Pairwise rankRel ∧
    ((sortScoreDesc (scoredList (findings_set [dyspneaFinding]) [])).take 7).length ≤ 7 ∧
    generate_differential_fallback [dyspneaFinding] [] =
      joinSep (str "\n")
        (str "# Differential Diagnosis\n" ::
          (((sortScoreDesc (scoredList (findings_set [dyspneaFinding]) [])).take 7).mapIdx
            fun i item => renderEntry (findings_set [dyspneaFinding]) (i + 1) item).flatten) :=
  C4_ranking [dyspneaFinding] [] ⟨cond0, by decide, by decide⟩

theorem fallbackSupportLoop_eq (fset keywords : List Str) :
    ∀ (l acc : List Chunk), acc.length < 2 →
      fallbackSupportLoop fset keywords l acc =
        (acc ++ l.filter fun ch =>
          (keywords.filter fun kw => kw ∈ fset).any
            fun kw => isSubstrOf kw (lower ch.text)).take 2 := by
  intro l
  induction l with
  | nil =>
    intro acc hacc
    rw [fallbackSupportLoop, List.filter_nil, List.append_nil,
      List.take_of_length_le (by omega)]
  | cons ch rest ih =>
    intro acc hacc
    simp only [fallbackSupportLoop]
    by_cases hc : ((keywords.filter fun kw => kw ∈ fset).any
        fun kw => isSubstrOf kw (lower ch.text)) = true
    · rw [if_pos hc, List.filter_cons, if_pos hc]
      by_cases h2 : 2 ≤ (acc ++ [ch]).length
      · rw [if_pos h2]
        have hlen : acc.length = 1 := by
          simp only [List.length_append, List.length_cons, List.length_nil] at h2
          omega
        obtain ⟨a, rfl⟩ := List.length_eq_one.mp hlen
        simp [List.take]
      · rw [if_neg h2]
        rw [ih _ (by simp only [List.length_append, List.length_cons,
          List.length_nil] at h2 ⊢; omega)]
        rw [List.append_assoc]
        rfl
    · rw [if_neg hc, List.filter_cons, if_neg hc, ih acc hacc]

/-- C6: supporting evidence is attached in two passes in retrieval
order: the preferred pass keeps every passage whose article id contains
the condition's affinity tag, capped at 3; only when it finds none, the
fallback pass keeps passages whose text contains a matched keyword,
capped at 2; the final list never exceeds 3. -/
theorem C6_supporting_evidence (fset : List Str) (info : ConditionInfo)
    (literature : List Chunk) :
    (supportingFor fset info literature).length ≤ 3 ∧
    supportingFor fset info literature =
      (if preferredSupport literature info = [] then
        (literature.filter fun ch =>
          (info.keywords.filter fun kw => kw ∈ fset).any
            fun kw => isSubstrOf kw (lower ch.text)).take 2
      else (preferredSupport literature info).take 3) := by
  constructor
  · simp only [supportingFor]
    exact List.length_take_le _ _
  · simp only [supportingFor]
    by_cases hp : preferredSupport literature info = []
    · rw [if_pos hp]
      have hie : (preferredSupport literature info).isEmpty = true := by
        rw [hp]; rfl
      rw [hie, if_pos rfl, fallbackSupportLoop_eq fset info.keywords literature []
        (by simp), List.nil_append, List.take_take]
      rfl
    · rw [if_neg hp, isEmpty_false_of_ne_nil hp]
      simp

/-- C8: the orchestrator is strictly sequential with exactly two
deviations: extraction yielding zero findings sets the early-exit error
with every later field at its default, and a raise in any stage sets the
single pipeline error, keeping fields populated before the failure and
leaving later fields at their defaults. -/
theorem C8_orchestration
    (ex : Except Str (List Finding))
    (re : List Finding → Except Str (List ScoredChunk))
    (ge : List Finding → List ScoredChunk → Except Str Str)
    (va : Str → List ScoredChunk → Except Str ValidationResult) :
    (∀ e, ex = .error e →
      run_healthguard ex re ge va =
        { emptyPipelineResult with error := some (pipelineErrorMsg e) }) ∧
    (ex = .ok [] →
      run_healthguard ex re ge va =
        { emptyPipelineResult with error := some emptyFindingsMsg }) ∧
    (∀ fs e, ex = .ok fs → fs ≠ [] → re fs = .error e →
      run_healthguard ex re ge va =
        { emptyPipelineResult with
            findings := fs,
            error := some (pipelineErrorMsg e) }) ∧
    (∀ fs lit e, ex = .ok fs → fs ≠ [] → re fs = .ok lit → ge fs lit = .error e →
      run_healthguard ex re ge va =
        { emptyPipelineResult with
            findings := fs,
            literature := lit,
            error := some (pipelineErrorMsg e) }) ∧
    (∀ fs lit diff e, ex = .ok fs → fs ≠ [] → re fs = .ok lit →
      ge fs lit = .ok diff → va diff lit = .error e →
      run_healthguard ex re ge va =
        { emptyPipelineResult with
            findings := fs,
            literature := lit,
            differential := diff,
            error := some (pipelineErrorMsg e) }) ∧
    (∀ fs lit diff v, ex = .ok fs → fs ≠ [] → re fs = .ok lit →
      ge fs lit = .ok diff → va diff lit = .ok v →
      run_healthguard ex re ge va =
        { findings := fs, literature := lit, differential := diff,
          validation := some v, error := none }) := by
  refine ⟨?_, ?_, ?_, ?_, ?_, ?_⟩
  · intro e he
    rw [he]
    rfl
  · intro he
    rw [he]
    rfl
  · intro fs e he hne hre
    rw [he]
    simp [run_healthguard, isEmpty_false_of_ne_nil hne, hre]
  · intro fs lit e he hne hre hge
    rw [he]
    simp [run_healthguard, isEmpty_false_of_ne_nil hne, hre, hge]
  · intro fs lit diff e he hne hre hge hva
    rw [he]
    simp [run_healthguard, isEmpty_false_of_ne_nil hne, hre, hge, hva]
  · intro fs lit diff v he hne hre hge hva
    rw [he]
    simp [run_healthguard, isEmpty_false_of_ne_nil hne, hre, hge, hva]

/-- Witness for C8: a concrete run whose generation stage raises keeps
the extracted findings and retrieved literature and reports the single
pipeline error. -/
theorem C8_witness :
    run_healthguard demoExtract demoRetrieve demoGenerateFail demoValidate =
      { emptyPipelineResult with
          findings := [dyspneaFinding],
          literature := [],
          error := some (pipelineErrorMsg (str "boom")) } :=
  (C8_orchestration demoExtract demoRetrieve demoGenerateFail demoValidate).2.2.2.1
    [dyspneaFinding] [] (str "boom") rfl (by decide) rfl rfl

theorem joinSep_cons_ne_nil (sep x : Str) (xs : List Str) (hx : x ≠ []) :
    joinSep sep (x :: xs) ≠ [] := by
  cases xs with
  | nil => simpa [joinSep] using hx
  | cons y ys =>
    simp only [joinSep]
    intro hc
    rw [List.append_assoc] at hc
    exact hx (List.append_eq_nil.mp hc).1

/-- C9: over well-formed (typed) findings and literature the fallback
generator is total and always yields a non-empty report: either the
fixed no-match message or a report headed by the differential title. -/
theorem C9_fallback_total (findings : List Finding) (literature : List Chunk) :
    generate_differential_fallback findings literature ≠ [] := by
  by_cases hie :
      (sortScoreDesc (scoredList (findings_set findings) literature)).isEmpty
  · simp only [generate_differential_fallback, hie, if_true]
    decide
  · simp only [generate_differential_fallback, Bool.not_eq_true] at hie ⊢
    rw [hie]
    simp only [Bool.false_eq_true, if_false]
    exact joinSep_cons_ne_nil _ _ _ (by decide)

end HealthGuard
